import Mathlib

/-
Verification development for the duck-database append-only log engine
(`lsm-database/core_engine/src/log_file/mod.rs`).

The Rust engine is shallowly embedded as follows.

* Byte strings (`Vec<u8>`, file contents) are `List Nat`; every byte the
  engine itself writes is `< 256` because the encoders only emit `n % 256`.
* Keys and values (`String` / `&str` in Rust) are modelled by their UTF-8
  byte content (`Bytes`).  API-supplied keys and values are valid UTF-8 by
  the `&str` type, so their conversion round-trip is dropped; theorems
  quantifying over arbitrary byte lists over-approximate the API domain.
  Bytes read back from DISK need not be valid UTF-8, and the source calls
  `String::from_utf8(..).unwrap()` on four disk-sourced buffers — the
  hint-file loader (line 85), the recovery scan (line 182), delete's value
  read-back (line 318) and the compaction scan (line 419).  These are
  modelled by the exact `validUTF8` check; its failure is the
  `Err.panicked` outcome, standing for the Rust thread panic (the
  in-memory mutations made before the panic persist, as they do behind the
  poisoned mutex).  `read`'s conversion of the value it returns (line 274)
  stays collapsed: the property proved about `read` below (it never
  mutates state) holds on the panic path too, and its round-trip
  conclusions are asserted only for API-supplied values, which are valid
  UTF-8.
* File names: every path the engine constructs has one of four shapes,
  modelled by the inductive `FName`:
    - `"./tmp/log-file-{id}"`        ↦ `FName.seg id`
    - `"./tmp/log-file-{id}.log"`    ↦ `FName.segLog id`  (compaction target)
    - `"./tmp/hint-{id}.log"`        ↦ `FName.hint id`
    - `"./tmp/temp-log-file-{ts}"`   ↦ `FName.temp ts`
    - the initial `""` path from `LogFile::new` ↦ `FName.empty`
  The recovery filter (`strip_prefix("log-file-")` followed by a `u64`
  parse) accepts exactly the `FName.seg` names: `"log-file-{id}.log"`
  fails the numeric parse and `"temp-log-file-{ts}"`/"hint-..." fail the
  prefix test, so the structured names are a faithful rendering.
* The filesystem directory is a key/value map `Disk = List (FName × Bytes)`.
* `HashMap` is modelled as an association list with overwrite-on-insert
  (`mapInsert`/`mapLookup`/`mapErase`).  Iteration order of a `HashMap` is
  unspecified in Rust; the model fixes one order, which no theorem below
  depends on.
* Timestamps (`i64`, written little-endian) are modelled by their u64 bit
  pattern as a `Nat`; `Utc::now()` is nondeterministic, so every operation
  that reads the clock takes the timestamp as an explicit argument.
* Fallible I/O: operations return `Sys × Except Err α` — the final engine
  state together with the outcome, mirroring that Rust's `?` returns early
  while `self.inner` keeps all mutations already performed.  `fault` is a
  fault-injection flag standing for a failing `write_all`/`sync_all`
  syscall (disk full, etc.) inside `insert_index_value`; `fault = false`
  is the fault-free run.
* Loops over a file are bounded recursions with fuel `file.length + 1`;
  every iteration advances the read offset by at least 24 bytes (records)
  or 32 bytes (hint entries), so the fuel is never exhausted and the
  fuel-out branches are unreachable.
-/

namespace DuckLog

abbrev Bytes := List Nat

/-- Structured file names, see the header comment for the mapping to the
`format!` strings in the source. -/
inductive FName where
  | empty
  | seg (id : Nat)
  | segLog (id : Nat)
  | hint (id : Nat)
  | temp (ts : Nat)
deriving DecidableEq

abbrev Disk := List (FName × Bytes)

/-- `struct Index { file_id: u64, offset: u64 }` -/
structure Index where
  file_id : Nat
  offset : Nat
deriving DecidableEq

/-- `struct MetaIndex { timestamp, key_size, key_buf, value_size, value_buf }` -/
structure MetaIndex where
  timestamp : Nat
  key_size : Nat
  key_buf : Bytes
  value_size : Nat
  value_buf : Bytes
deriving DecidableEq

abbrev DataIndex := List (Bytes × Index)
abbrev FileIndex := List (Nat × FName)

/-- `struct Inner` — the state behind the engine's mutex. -/
structure Inner where
  byte_offset : Nat
  current_file_id : Nat
  path : FName
  data_index : DataIndex
  file_index : FileIndex
deriving DecidableEq

/-- Engine state plus the filesystem directory it works in. -/
structure Sys where
  inner : Inner
  disk : Disk
deriving DecidableEq

/-- Error outcomes, mapping the `io::Error` values produced by the source:
`invalidKey` is the `Error::other("")` for an empty key, `notFound` the
"key does not exist in the index" errors, `eof` is `ErrorKind::UnexpectedEof`
(short positioned read or the corrupt-record size check), `ioError` any other
filesystem failure, and `panicked` an `unwrap()` failure. -/
inductive Err where
  | invalidKey
  | notFound
  | ioError
  | eof
  | panicked
deriving DecidableEq

/-- Outcome of an engine call: final state and result, see header comment. -/
abbrev Res (α : Type) := Sys × Except Err α

instance {ε α : Type} [DecidableEq ε] [DecidableEq α] : DecidableEq (Except ε α) :=
  fun a b =>
    match a, b with
    | .ok x, .ok y =>
      if h : x = y then isTrue (by rw [h]) else isFalse (fun hc => by cases hc; exact h rfl)
    | .error x, .error y =>
      if h : x = y then isTrue (by rw [h]) else isFalse (fun hc => by cases hc; exact h rfl)
    | .ok _, .error _ => isFalse (fun hc => by cases hc)
    | .error _, .ok _ => isFalse (fun hc => by cases hc)

/-- Association-list map lookup (`HashMap::get` / `contains_key`). -/
def mapLookup {α β : Type} [DecidableEq α] (k : α) : List (α × β) → Option β
  | [] => none
  | p :: t => if p.1 = k then some p.2 else mapLookup k t

/-- Remove every binding of a key (`HashMap::remove`). -/
def mapErase {α β : Type} [DecidableEq α] (k : α) : List (α × β) → List (α × β)
  | [] => []
  | p :: t => if p.1 = k then mapErase k t else p :: mapErase k t

/-- Overwriting insert (`HashMap::insert`). -/
def mapInsert {α β : Type} [DecidableEq α] (k : α) (v : β) (m : List (α × β)) : List (α × β) :=
  (k, v) :: mapErase k m

/-- Little-endian encoding of a 64-bit integer (`to_le_bytes`). -/
def toLE8 (n : Nat) : Bytes :=
  [n % 256, n / 256 % 256, n / 65536 % 256, n / 16777216 % 256,
   n / 4294967296 % 256, n / 1099511627776 % 256,
   n / 281474976710656 % 256, n / 72057594037927936 % 256]

/-- Little-endian decoding (`u64::from_le_bytes`). -/
def fromLE8 (l : Bytes) : Nat :=
  l.foldr (fun b acc => b + 256 * acc) 0

/-- `FileExt::read_exact_at`: `n` bytes at `off`, failing (UnexpectedEof)
when fewer than `n` bytes exist past `off`. -/
def readExactAt (f : Bytes) (off n : Nat) : Option Bytes :=
  if off + n ≤ f.length then some ((f.drop off).take n) else none

/-- UTF-8 continuation byte `10xxxxxx`. -/
def isCont (b : Nat) : Bool :=
  decide (128 ≤ b) && decide (b ≤ 191)

/-- Exact UTF-8 validation, as `String::from_utf8` performs it (RFC 3629:
shortest encodings only, no surrogates, code points at most U+10FFFF):
lead bytes `00..7F` stand alone; `C2..DF` take one continuation byte;
`E0`/`E1..EC,EE,EF`/`ED` take `A0..BF`/`80..BF`/`80..9F` and then a
continuation byte; `F0`/`F1..F3`/`F4` take `90..BF`/`80..BF`/`80..8F` and
then two continuation bytes; `80..C1` and `F5..` leads are invalid. -/
def validUTF8 : List Nat → Bool
  | [] => true
  | b :: t =>
    if b ≤ 127 then validUTF8 t
    else if b ≤ 193 then false
    else if b ≤ 223 then
      match t with
      | c :: t2 => isCont c && validUTF8 t2
      | [] => false
    else if b ≤ 239 then
      match t with
      | c :: d :: t2 =>
        (if b = 224 then decide (160 ≤ c) && decide (c ≤ 191)
         else if b = 237 then decide (128 ≤ c) && decide (c ≤ 159)
         else isCont c) && isCont d && validUTF8 t2
      | _ => false
    else if b ≤ 244 then
      match t with
      | c :: d :: e :: t2 =>
        (if b = 240 then decide (144 ≤ c) && decide (c ≤ 191)
         else if b = 244 then decide (128 ≤ c) && decide (c ≤ 143)
         else isCont c) && isCont d && isCont e && validUTF8 t2
      | _ => false
    else false

/-- On-disk record layout written by `insert_index_value` (and by `compact`):
timestamp, key_size, value_size, key bytes, value bytes. -/
def encodeRec (m : MetaIndex) : Bytes :=
  toLE8 m.timestamp ++ toLE8 m.key_size ++ toLE8 m.value_size ++ m.key_buf ++ m.value_buf

/-- `LogFile::get_index_from_file`: decode one record at `off`; `none` is the
UnexpectedEof outcome (short header read, short payload read, or the
corrupt-record check `offset + key_size + value_size > file_size`).
Returns the record and the offset just past it. -/
def get_index_from_file (f : Bytes) (off : Nat) : Option (MetaIndex × Nat) :=
  match readExactAt f off 8, readExactAt f (off + 8) 8, readExactAt f (off + 16) 8 with
  | some tsb, some ksb, some vsb =>
    let key_size := fromLE8 ksb
    let value_size := fromLE8 vsb
    if off + 24 + key_size + value_size > f.length then none
    else
      match readExactAt f (off + 24) key_size, readExactAt f (off + 24 + key_size) value_size with
      | some kb, some vb =>
        some (⟨fromLE8 tsb, key_size, kb, value_size, vb⟩, off + 24 + key_size + value_size)
      | _, _ => none
  | _, _, _ => none

/-- The per-segment scan loop of `LogFile::start` (lines 169–190): decode
records from `off`; `String::from_utf8(key_buf).unwrap()` (line 182) panics
on non-UTF-8 key bytes; otherwise insert `(file_id, record offset)` for a
normal record and remove the key for a tombstone.  Any UnexpectedEof ends
the scan.  The index built so far is kept in both the break and the panic
outcome.  Fuel-bounded, see header comment. -/
def scanStartF (fid : Nat) (f : Bytes) : Nat → Nat → DataIndex → DataIndex × Except Err Unit
  | 0, _, idx => (idx, .error .ioError)
  | fuel + 1, off, idx =>
    if f.length ≤ off then (idx, .ok ())
    else
      match get_index_from_file f off with
      | none => (idx, .ok ())
      | some (m, off') =>
        if validUTF8 m.key_buf then
          if m.value_buf = [] then scanStartF fid f fuel off' (mapErase m.key_buf idx)
          else scanStartF fid f fuel off' (mapInsert m.key_buf ⟨fid, off⟩ idx)
        else (idx, .error .panicked)

def scanStart (fid : Nat) (f : Bytes) (idx : DataIndex) : DataIndex × Except Err Unit :=
  scanStartF fid f (f.length + 1) 0 idx

/-- The scan loop of `LogFile::compact_file`: same walk as `scanStartF`
(including the `from_utf8` panic on non-UTF-8 key bytes, line 419) but a
decode failure propagates as an error (`?` in the source, no break), and the
accumulator stores whole records keyed by key bytes. -/
def compactScanF (f : Bytes) :
    Nat → Nat → List (Bytes × MetaIndex) → Except Err (List (Bytes × MetaIndex))
  | 0, _, _ => .error .ioError
  | fuel + 1, off, ef =>
    if f.length ≤ off then .ok ef
    else
      match get_index_from_file f off with
      | none => .error .eof
      | some (m, off') =>
        if validUTF8 m.key_buf then
          if m.value_buf = [] then compactScanF f fuel off' (mapErase m.key_buf ef)
          else compactScanF f fuel off' (mapInsert m.key_buf m ef)
        else .error .panicked

/-- The entry loop of `LogFile::read_hint_file`: key_size, key (whose
`from_utf8` unwrap, line 85, panics on non-UTF-8 bytes), skipped timestamp,
file_id, offset per entry; a short read propagates as an error.  The entries
already inserted are kept in every outcome. -/
def hintScanF (f : Bytes) : Nat → Nat → DataIndex → DataIndex × Except Err Unit
  | 0, _, idx => (idx, .error .ioError)
  | fuel + 1, off, idx =>
    if f.length ≤ off then (idx, .ok ())
    else
      match readExactAt f off 8 with
      | none => (idx, .error .eof)
      | some ksb =>
        let ks := fromLE8 ksb
        match readExactAt f (off + 8) ks with
        | none => (idx, .error .eof)
        | some kb =>
          if validUTF8 kb then
            match readExactAt f (off + 8 + ks + 8) 8 with
            | none => (idx, .error .eof)
            | some fidb =>
              match readExactAt f (off + 8 + ks + 16) 8 with
              | none => (idx, .error .eof)
              | some offb =>
                hintScanF f fuel (off + 8 + ks + 24)
                  (mapInsert kb ⟨fromLE8 fidb, fromLE8 offb⟩ idx)
          else (idx, .error .panicked)

/-- `LogFile::new`: byte_offset `0x1`, current_file_id `0x1`, empty path and
maps; paired with a given starting directory. -/
def newSys (d : Disk) : Sys :=
  ⟨⟨1, 1, .empty, [], []⟩, d⟩

/-- `LogFile::create`: open (create if missing) `log-file-{current_file_id}`,
point `path` at it, register it, and reset `byte_offset` to 0. -/
def create (s : Sys) : Sys :=
  let path := FName.seg s.inner.current_file_id
  let disk :=
    match mapLookup path s.disk with
    | some _ => s.disk
    | none => mapInsert path [] s.disk
  { inner := { s.inner with
      path := path,
      file_index := mapInsert s.inner.current_file_id path s.inner.file_index,
      byte_offset := 0 },
    disk := disk }

/-- `LogFile::split`: after a write, rotate to a fresh segment when the active
file exceeds `FILE_THRESHOLD = 1024` bytes. -/
def split (s : Sys) : Res Unit :=
  match mapLookup s.inner.path s.disk with
  | none => (s, .error .ioError)
  | some f =>
    if f.length > 1024 then
      (create { s with inner.current_file_id := s.inner.current_file_id + 1 }, .ok ())
    else (s, .ok ())

/-- `LogFile::insert_index_value`: append the encoded record to the active
path and fsync, then run the rotation check.  `fault = true` injects a
failing `write_all`/`sync_all` (see header comment). -/
def insert_index_value (fault : Bool) (m : MetaIndex) (s : Sys) : Res Unit :=
  match mapLookup s.inner.path s.disk with
  | none => (s, .error .ioError)
  | some f =>
    if fault then (s, .error .ioError)
    else split { s with disk := mapInsert s.inner.path (f ++ encodeRec m) s.disk }

/-- `LogFile::append` (the `put` of the spec): reject empty keys; insert the
index entry `(current_file_id, byte_offset)` and advance `byte_offset` by
`value.len + key.len + 8*3`; then perform the durable append. -/
def append (fault : Bool) (key value : Bytes) (ts : Nat) (s : Sys) : Res Unit :=
  if key = [] then (s, .error .invalidKey)
  else
    let data_size := value.length + key.length + 8 * 3
    let index_value : Index := ⟨s.inner.current_file_id, s.inner.byte_offset⟩
    let s := { s with
      inner.data_index := mapInsert key index_value s.inner.data_index,
      inner.byte_offset := s.inner.byte_offset + data_size }
    insert_index_value fault ⟨ts, key.length, key, value.length, value⟩ s

/-- `LogFile::get_index_value`: index lookup, registry lookup (`unwrap` —
a missing registry entry panics), open the segment, decode at the stored
offset. -/
def get_index_value (id : Bytes) (s : Sys) : Except Err MetaIndex :=
  match mapLookup id s.inner.data_index with
  | none => .error .notFound
  | some index =>
    match mapLookup index.file_id s.inner.file_index with
    | none => .error .panicked
    | some p =>
      match mapLookup p s.disk with
      | none => .error .ioError
      | some f =>
        match get_index_from_file f index.offset with
        | none => .error .eof
        | some r => .ok r.1

/-- `LogFile::read` (the `get` of the spec): membership check, then
`get_index_value`, returning the record's value bytes. -/
def read (id : Bytes) (s : Sys) : Res Bytes :=
  match mapLookup id s.inner.data_index with
  | none => (s, .error .notFound)
  | some _ =>
    match get_index_value id s with
    | .error e => (s, .error e)
    | .ok m => (s, .ok m.value_buf)

/-- `LogFile::update`: like `append` but requires the key to be present;
note the advance of `byte_offset` by `value.len + key.len + 8*2` while the
record written is `8*3` bytes of header. -/
def update (fault : Bool) (key value : Bytes) (ts : Nat) (s : Sys) : Res Unit :=
  if key = [] then (s, .error .invalidKey)
  else
    match mapLookup key s.inner.data_index with
    | none => (s, .error .notFound)
    | some _ =>
      let data_size := value.length + key.length + 8 * 2
      let index_value : Index := ⟨s.inner.current_file_id, s.inner.byte_offset⟩
      let s := { s with
        inner.data_index := mapInsert key index_value s.inner.data_index,
        inner.byte_offset := s.inner.byte_offset + data_size }
      insert_index_value fault ⟨ts, key.length, key, value.length, value⟩ s

/-- `LogFile::delete`: read the stored record back; converting its value to
a `String` (line 318) panics when the read-back bytes are not valid UTF-8
(nothing is appended, the key stays indexed); otherwise clear the value
(tombstone), append it, then drop the key from the index.  `byte_offset` is
not touched by the source. -/
def delete (fault : Bool) (id : Bytes) (s : Sys) : Res Unit :=
  match get_index_value id s with
  | .error e => (s, .error e)
  | .ok m =>
    if validUTF8 m.value_buf then
      let m := { m with value_size := 0, value_buf := [] }
      match insert_index_value fault m s with
      | (s', .error e) => (s', .error e)
      | (s', .ok _) =>
        ({ s' with inner.data_index := mapErase id s'.inner.data_index }, .ok ())
    else (s, .error .panicked)

/-- Record block written by `compact` for the surviving map, in map
iteration order (layout identical to `insert_index_value`). -/
def encodeEndFile : List (Bytes × MetaIndex) → Bytes
  | [] => []
  | p :: t => encodeRec p.2 ++ encodeEndFile t

/-- Hint entry block written by `write_hint_file`: key_size, key bytes,
timestamp, file_id, offset per index entry. -/
def encodeHintEntries (tsH : Nat) : List (Bytes × Index) → Bytes
  | [] => []
  | p :: t =>
    toLE8 p.1.length ++ p.1 ++ toLE8 tsH ++ toLE8 p.2.file_id ++ toLE8 p.2.offset
      ++ encodeHintEntries tsH t

/-- `LogFile::write_hint_file`: append (create+append) the current index
snapshot to `hint-{current_file_id}.log`.  The per-entry `Utc::now()` calls
are collapsed into the single timestamp argument. -/
def write_hint_file (tsH : Nat) (s : Sys) : Res Unit :=
  let path := FName.hint s.inner.current_file_id
  let old := (mapLookup path s.disk).getD []
  ({ s with disk := mapInsert path (old ++ encodeHintEntries tsH s.inner.data_index) s.disk },
   .ok ())

/-- `LogFile::compact_file`: open the segment and fold its records into the
accumulated live map; decode errors propagate. -/
def compact_file (s : Sys) (ef : List (Bytes × MetaIndex)) (p : FName) :
    Except Err (List (Bytes × MetaIndex)) :=
  match mapLookup p s.disk with
  | none => .error .ioError
  | some f => compactScanF f (f.length + 1) 0 ef

/-- The loop of `compact` over the sorted file ids (`new_hash.get(..).unwrap()`
cannot miss because the ids are the map's own keys). -/
def compactAll (s : Sys) (nh : FileIndex) :
    List Nat → List (Bytes × MetaIndex) → Except Err (List (Bytes × MetaIndex))
  | [], ef => .ok ef
  | fid :: t, ef =>
    match mapLookup fid nh with
    | none => .error .panicked
    | some p =>
      match compact_file s ef p with
      | .error e => .error e
      | .ok ef' => compactAll s nh t ef'

/-- The deletion loop of `compact`: `fs::remove_file` for every registry
path, in map iteration order; a missing file is an error that keeps the
deletions already done. -/
def removeFiles : Disk → List FName → Disk × Except Err Unit
  | d, [] => (d, .ok ())
  | d, p :: t =>
    match mapLookup p d with
    | none => (d, .error .ioError)
    | some _ => removeFiles (mapErase p d) t

/-- `LogFile::compact`, line for line: take the registry, scan every segment
in ascending id order into the live map, put the registry back, write the
live records to `temp-log-file-{tsName}`, reset `current_file_id` to 1,
compute the target name `log-file-1.log`, delete every registry path, rename
the temp file to the target, register the target, and write the hint file.
`tsName`/`tsHint` are the two `Utc::now()` readings. -/
def compact (tsName tsHint : Nat) (s : Sys) : Res Unit :=
  let new_hash := s.inner.file_index
  let s := { s with inner.file_index := [] }
  let sorted := List.insertionSort (fun a b => a ≤ b) (new_hash.map (fun p => p.1))
  match compactAll s new_hash sorted [] with
  | .error e => (s, .error e)
  | .ok end_file =>
    let s := { s with inner.file_index := new_hash }
    let temp := FName.temp tsName
    let s := { s with disk := mapInsert temp (encodeEndFile end_file) s.disk }
    let s := { s with inner.current_file_id := 1 }
    let path := FName.segLog s.inner.current_file_id
    let dr := removeFiles s.disk (s.inner.file_index.map (fun p => p.2))
    match dr.2 with
    | .error e => ({ s with disk := dr.1 }, .error e)
    | .ok _ =>
      match mapLookup temp dr.1 with
      | none => ({ s with disk := dr.1 }, .error .ioError)
      | some content =>
        let d := mapInsert path content (mapErase temp dr.1)
        let s :=
          { s with
              disk := d,
              inner.path := path,
              inner.file_index := mapInsert s.inner.current_file_id path s.inner.file_index }
        write_hint_file tsHint s

/-- `LogFile::read_hint_file`: if `hint-{current_file_id}.log` exists, load
its entries into the index (partial loads are kept on error). -/
def read_hint_file (s : Sys) : Res Unit :=
  match mapLookup (FName.hint s.inner.current_file_id) s.disk with
  | none => (s, .ok ())
  | some f =>
    let r := hintScanF f (f.length + 1) 0 s.inner.data_index
    ({ s with inner.data_index := r.1 }, r.2)

/-- The numeric id of a directory entry when its name survives
`strip_prefix("log-file-")` plus the `u64` parse, i.e. exactly the
`FName.seg` names. -/
def segId? : FName → Option Nat
  | .seg i => some i
  | _ => none

/-- The segment ids present in the directory. -/
def segIds (d : Disk) : List Nat :=
  d.filterMap (fun p => segId? p.1)

/-- Body of the per-file recovery loop of `start`: register the segment and
fold its records into the index (the file is present because it was
enumerated from the directory).  The scan's panic outcome is passed on,
keeping the index entries inserted before it. -/
def startScanFile (s : Sys) (fid : Nat) : Sys × Except Err Unit :=
  let f := (mapLookup (FName.seg fid) s.disk).getD []
  let s := { s with inner.file_index := mapInsert fid (FName.seg fid) s.inner.file_index }
  let r := scanStart fid f s.inner.data_index
  ({ s with inner.data_index := r.1 }, r.2)

/-- The recovery loop of `start` over the sorted segment list, stopping at
the first panic. -/
def startScanAll : Sys → List Nat → Sys × Except Err Unit
  | s, [] => (s, .ok ())
  | s, fid :: t =>
    match startScanFile s fid with
    | (s', .ok _) => startScanAll s' t
    | (s', .error e) => (s', .error e)

/-- `LogFile::start` (the `open` of the spec): read the hint file, scan the
`log-file-<id>` segments in ascending id order (a `from_utf8` panic in a
scan aborts the open), set `current_file_id` to
`last sorted id (default 1) + 1`, and create the new active segment. -/
def start (s : Sys) : Res Unit :=
  match read_hint_file s with
  | (s1, .error e) => (s1, .error e)
  | (s1, .ok _) =>
    let files := List.insertionSort (fun a b => a ≤ b) (segIds s1.disk)
    match startScanAll s1 files with
    | (s2, .error e) => (s2, .error e)
    | (s2, .ok _) =>
      let id := files.getLast?.getD 1
      (create { s2 with inner.current_file_id := id + 1 }, .ok ())

/-- The index effect of a record list, as §4.7 of the spec words it: walk the
decoded records in order, a tombstone removes its key, any other record
upserts `(file_id, offset of the record)`.  This is the specification-side
fold that the recovery scan is compared against. -/
def applyRecords (fid : Nat) : Nat → List MetaIndex → DataIndex → DataIndex
  | _, [], idx => idx
  | off, m :: t, idx =>
    if m.value_buf = [] then
      applyRecords fid (off + 24 + m.key_size + m.value_size) t (mapErase m.key_buf idx)
    else
      applyRecords fid (off + 24 + m.key_size + m.value_size) t
        (mapInsert m.key_buf ⟨fid, off⟩ idx)

/-- Concatenated encoding of a record list. -/
def encodeAll : List MetaIndex → Bytes
  | [] => []
  | m :: t => encodeRec m ++ encodeAll t

/-! ### Association-list map laws -/

theorem mapLookup_erase_self {α β : Type} [DecidableEq α] (k : α) (m : List (α × β)) :
    mapLookup k (mapErase k m) = none := by
  induction m with
  | nil => rfl
  | cons p t ih =>
    by_cases h : p.1 = k
    · simpa [mapErase, h] using ih
    · simp [mapErase, h, mapLookup, ih]

theorem mapLookup_erase_ne {α β : Type} [DecidableEq α] {k k' : α} (m : List (α × β))
    (h : k' ≠ k) : mapLookup k' (mapErase k m) = mapLookup k' m := by
  have h2 : ¬ k = k' := fun hc => h hc.symm
  induction m with
  | nil => rfl
  | cons p t ih =>
    by_cases hp : p.1 = k
    · subst hp
      simp [mapErase, mapLookup, h2, ih]
    · simp [mapErase, mapLookup, hp, ih]

@[simp] theorem mapLookup_insert_self {α β : Type} [DecidableEq α] (k : α) (v : β)
    (m : List (α × β)) : mapLookup k (mapInsert k v m) = some v := by
  simp [mapInsert, mapLookup]

theorem mapLookup_insert_ne {α β : Type} [DecidableEq α] {k k' : α} (v : β)
    (m : List (α × β)) (h : k' ≠ k) :
    mapLookup k' (mapInsert k v m) = mapLookup k' m := by
  have : ¬ k = k' := fun hc => h hc.symm
  simp [mapInsert, mapLookup, this, mapLookup_erase_ne m h]

theorem mapLookup_some_mem {α β : Type} [DecidableEq α] {k : α} {v : β}
    {m : List (α × β)} (h : mapLookup k m = some v) : (k, v) ∈ m := by
  induction m with
  | nil => simp [mapLookup] at h
  | cons p t ih =>
    rw [mapLookup] at h
    by_cases hp : p.1 = k
    · rw [if_pos hp] at h
      cases h
      subst hp
      exact List.mem_cons_self p t
    · rw [if_neg hp] at h
      exact List.mem_cons_of_mem _ (ih h)

/-! ### Little-endian codec -/

@[simp] theorem toLE8_length (n : Nat) : (toLE8 n).length = 8 := rfl

theorem fromLE8_toLE8 (n : Nat) : fromLE8 (toLE8 n) = n % 18446744073709551616 := by
  simp only [toLE8, fromLE8, List.foldr]
  omega

/-! ### Positioned reads over concatenations -/

theorem drop_len_append {α : Type} (a b : List α) : (a ++ b).drop a.length = b := by
  simp

theorem take_len_append {α : Type} (a b : List α) : (a ++ b).take a.length = a := by
  simp

theorem readExactAt_block (pre mid suf : Bytes) (off n : Nat)
    (hoff : off = pre.length) (hn : n = mid.length) :
    readExactAt (pre ++ (mid ++ suf)) off n = some mid := by
  subst hoff; subst hn
  unfold readExactAt
  rw [if_pos]
  · rw [drop_len_append pre (mid ++ suf), take_len_append mid suf]
  · simp

/-! ### Decoding a freshly encoded record -/

theorem encodeRec_length (m : MetaIndex) :
    (encodeRec m).length = 24 + m.key_buf.length + m.value_buf.length := by
  simp [encodeRec]
  omega

theorem decode_append (c rest : Bytes) (m : MetaIndex)
    (hk : m.key_buf.length = m.key_size) (hv : m.value_buf.length = m.value_size)
    (hks : m.key_size < 18446744073709551616) (hvs : m.value_size < 18446744073709551616) :
    get_index_from_file (c ++ (encodeRec m ++ rest)) c.length
      = some (⟨m.timestamp % 18446744073709551616, m.key_size, m.key_buf,
                m.value_size, m.value_buf⟩,
              c.length + 24 + m.key_size + m.value_size) := by
  have hts : readExactAt (c ++ (encodeRec m ++ rest)) c.length 8 = some (toLE8 m.timestamp) := by
    rw [show c ++ (encodeRec m ++ rest)
        = c ++ (toLE8 m.timestamp
            ++ (toLE8 m.key_size ++ toLE8 m.value_size ++ m.key_buf ++ m.value_buf ++ rest)) by
      simp [encodeRec]]
    exact readExactAt_block _ _ _ _ _ rfl rfl
  have hksr : readExactAt (c ++ (encodeRec m ++ rest)) (c.length + 8) 8
      = some (toLE8 m.key_size) := by
    rw [show c ++ (encodeRec m ++ rest)
        = (c ++ toLE8 m.timestamp)
            ++ (toLE8 m.key_size ++ (toLE8 m.value_size ++ m.key_buf ++ m.value_buf ++ rest)) by
      simp [encodeRec]]
    exact readExactAt_block _ _ _ _ _ (by simp) rfl
  have hvsr : readExactAt (c ++ (encodeRec m ++ rest)) (c.length + 16) 8
      = some (toLE8 m.value_size) := by
    rw [show c ++ (encodeRec m ++ rest)
        = (c ++ toLE8 m.timestamp ++ toLE8 m.key_size)
            ++ (toLE8 m.value_size ++ (m.key_buf ++ m.value_buf ++ rest)) by
      simp [encodeRec]]
    exact readExactAt_block _ _ _ _ _ (by simp) rfl
  have hkb : readExactAt (c ++ (encodeRec m ++ rest)) (c.length + 24) m.key_size
      = some m.key_buf := by
    rw [show c ++ (encodeRec m ++ rest)
        = (c ++ toLE8 m.timestamp ++ toLE8 m.key_size ++ toLE8 m.value_size)
            ++ (m.key_buf ++ (m.value_buf ++ rest)) by
      simp [encodeRec]]
    exact readExactAt_block _ _ _ _ _ (by simp) hk.symm
  have hvb : readExactAt (c ++ (encodeRec m ++ rest)) (c.length + 24 + m.key_size) m.value_size
      = some m.value_buf := by
    rw [show c ++ (encodeRec m ++ rest)
        = (c ++ toLE8 m.timestamp ++ toLE8 m.key_size ++ toLE8 m.value_size ++ m.key_buf)
            ++ (m.value_buf ++ rest) by
      simp [encodeRec]]
    exact readExactAt_block _ _ _ _ _
      (by simp only [List.length_append, toLE8_length, hk]) hv.symm
  have hlen : (c ++ (encodeRec m ++ rest)).length
      = c.length + (24 + m.key_buf.length + m.value_buf.length) + rest.length := by
    simp [encodeRec_length]
    omega
  have hcond : ¬ (c.length + 24 + m.key_size + m.value_size
      > (c ++ (encodeRec m ++ rest)).length) := by
    rw [hlen]
    omega
  unfold get_index_from_file
  rw [hts, hksr, hvsr]
  simp only [fromLE8_toLE8, Nat.mod_eq_of_lt hks, Nat.mod_eq_of_lt hvs]
  rw [if_neg hcond, hkb, hvb]

/-! ### Behaviour of the write path -/

theorem append_eq_split (k v c : Bytes) (ts : Nat) (s : Sys)
    (hk : ¬ k = []) (hdisk : mapLookup s.inner.path s.disk = some c) :
    append false k v ts s
      = split
          { s with
              inner.data_index :=
                mapInsert k ⟨s.inner.current_file_id, s.inner.byte_offset⟩ s.inner.data_index,
              inner.byte_offset := s.inner.byte_offset + (v.length + k.length + 8 * 3),
              disk := mapInsert s.inner.path
                (c ++ encodeRec ⟨ts, k.length, k, v.length, v⟩) s.disk } := by
  unfold append insert_index_value
  simp only [hk, if_neg, ite_false, if_false]
  have : mapLookup
      ({ s with
          inner.data_index :=
            mapInsert k ⟨s.inner.current_file_id, s.inner.byte_offset⟩ s.inner.data_index,
          inner.byte_offset :=
            s.inner.byte_offset + (v.length + k.length + 8 * 3) } : Sys).inner.path
      s.disk = some c := hdisk
  rw [this]
  simp

theorem update_eq_split (k v c : Bytes) (ts : Nat) (s : Sys) (iv : Index)
    (hk : ¬ k = []) (hin : mapLookup k s.inner.data_index = some iv)
    (hdisk : mapLookup s.inner.path s.disk = some c) :
    update false k v ts s
      = split
          { s with
              inner.data_index :=
                mapInsert k ⟨s.inner.current_file_id, s.inner.byte_offset⟩ s.inner.data_index,
              inner.byte_offset := s.inner.byte_offset + (v.length + k.length + 8 * 2),
              disk := mapInsert s.inner.path
                (c ++ encodeRec ⟨ts, k.length, k, v.length, v⟩) s.disk } := by
  unfold update insert_index_value
  simp only [hk, if_neg, ite_false, if_false, hin]
  have : mapLookup
      ({ s with
          inner.data_index :=
            mapInsert k ⟨s.inner.current_file_id, s.inner.byte_offset⟩ s.inner.data_index,
          inner.byte_offset :=
            s.inner.byte_offset + (v.length + k.length + 8 * 2) } : Sys).inner.path
      s.disk = some c := hdisk
  rw [this]
  simp

theorem split_eq_ite (s : Sys) (f : Bytes) (h : mapLookup s.inner.path s.disk = some f) :
    split s
      = if f.length > 1024 then
          (create { s with inner.current_file_id := s.inner.current_file_id + 1 }, .ok ())
        else (s, .ok ()) := by
  unfold split
  rw [h]

theorem read_of_lookups (k : Bytes) (t : Sys) (i : Index) (p : FName) (F : Bytes)
    (m : MetaIndex) (o : Nat)
    (h1 : mapLookup k t.inner.data_index = some i)
    (h2 : mapLookup i.file_id t.inner.file_index = some p)
    (h3 : mapLookup p t.disk = some F)
    (h4 : get_index_from_file F i.offset = some (m, o)) :
    read k t = (t, .ok m.value_buf) := by
  unfold read get_index_value
  simp only [h1, h2, h3, h4]

theorem seg_ne_of_id_ne {a b : Nat} (h : a ≠ b) : FName.seg a ≠ FName.seg b := by
  intro hc
  cases hc
  exact h rfl

/-- What `create` does to the state. -/
theorem create_inner (s : Sys) :
    (create s).inner.path = FName.seg s.inner.current_file_id
    ∧ (create s).inner.current_file_id = s.inner.current_file_id
    ∧ (create s).inner.byte_offset = 0
    ∧ (create s).inner.data_index = s.inner.data_index
    ∧ (create s).inner.file_index
        = mapInsert s.inner.current_file_id (FName.seg s.inner.current_file_id)
            s.inner.file_index := by
  unfold create
  exact ⟨rfl, rfl, rfl, rfl, rfl⟩

theorem create_disk_lookup_ne (s : Sys) (p : FName)
    (hne : p ≠ FName.seg s.inner.current_file_id) :
    mapLookup p (create s).disk = mapLookup p s.disk := by
  unfold create
  cases hfind : mapLookup (FName.seg s.inner.current_file_id) s.disk with
  | none => simp only [hfind]; exact mapLookup_insert_ne _ _ hne
  | some f => simp only [hfind]

theorem create_disk_absent (s : Sys)
    (h : mapLookup (FName.seg s.inner.current_file_id) s.disk = none) :
    mapLookup (FName.seg s.inner.current_file_id) (create s).disk = some [] := by
  unfold create
  simp only [h]
  exact mapLookup_insert_self _ _ _

/-! ### Recovery helpers: sorted file lists and state preservation -/

theorem mem_of_getLast? {α : Type} : ∀ {l : List α} {M : α}, l.getLast? = some M → M ∈ l
  | [], _, h => by cases h
  | [a], _, h => by
    rw [List.getLast?_singleton] at h
    cases h
    exact List.mem_singleton_self a
  | a :: b :: t, M, h => by
    rw [List.getLast?_cons_cons] at h
    exact List.mem_cons_of_mem _ (mem_of_getLast? h)

theorem sorted_last_ub :
    ∀ (l : List Nat), List.Sorted (fun a b => a ≤ b) l →
      ∀ M, l.getLast? = some M → ∀ x ∈ l, x ≤ M
  | [], _, _, h => by cases h
  | [a], _, M, h => by
    rw [List.getLast?_singleton] at h
    cases h
    intro x hx
    rw [List.mem_singleton] at hx
    exact Nat.le_of_eq hx
  | a :: b :: t, hs, M, h => by
    rw [List.getLast?_cons_cons] at h
    intro x hx
    rcases List.mem_cons.mp hx with hxa | hxt
    · subst hxa
      exact (List.sorted_cons.mp hs).1 M (mem_of_getLast? h)
    · exact sorted_last_ub (b :: t) (List.sorted_cons.mp hs).2 M h x hxt

theorem segIds_of_lookup {d : Disk} {i : Nat} {v : Bytes}
    (h : mapLookup (FName.seg i) d = some v) : i ∈ segIds d := by
  have hmem : (FName.seg i, v) ∈ d := mapLookup_some_mem h
  unfold segIds
  rw [List.mem_filterMap]
  exact ⟨(FName.seg i, v), hmem, rfl⟩

theorem startScanFile_preserves (s : Sys) (fid : Nat) :
    (startScanFile s fid).1.disk = s.disk
    ∧ (startScanFile s fid).1.inner.current_file_id = s.inner.current_file_id
    ∧ (startScanFile s fid).1.inner.byte_offset = s.inner.byte_offset
    ∧ (startScanFile s fid).1.inner.path = s.inner.path :=
  ⟨rfl, rfl, rfl, rfl⟩

theorem startScanAll_preserves (l : List Nat) (s : Sys) :
    (startScanAll s l).1.disk = s.disk
    ∧ (startScanAll s l).1.inner.current_file_id = s.inner.current_file_id
    ∧ (startScanAll s l).1.inner.byte_offset = s.inner.byte_offset
    ∧ (startScanAll s l).1.inner.path = s.inner.path := by
  induction l generalizing s with
  | nil => exact ⟨rfl, rfl, rfl, rfl⟩
  | cons a t ih =>
    unfold startScanAll
    rcases hsf : startScanFile s a with ⟨s', r⟩
    have hp := startScanFile_preserves s a
    rw [hsf] at hp
    cases r with
    | ok u =>
      simp only []
      have hi := ih s'
      exact ⟨hi.1.trans hp.1, hi.2.1.trans hp.2.1, hi.2.2.1.trans hp.2.2.1,
        hi.2.2.2.trans hp.2.2.2⟩
    | error e => exact hp

theorem read_hint_preserves (s : Sys) :
    (read_hint_file s).1.disk = s.disk
    ∧ (read_hint_file s).1.inner.current_file_id = s.inner.current_file_id
    ∧ (read_hint_file s).1.inner.byte_offset = s.inner.byte_offset
    ∧ (read_hint_file s).1.inner.path = s.inner.path
    ∧ (read_hint_file s).1.inner.file_index = s.inner.file_index := by
  unfold read_hint_file
  cases h : mapLookup (FName.hint s.inner.current_file_id) s.disk with
  | none => exact ⟨rfl, rfl, rfl, rfl, rfl⟩
  | some f => exact ⟨rfl, rfl, rfl, rfl, rfl⟩

/-! ### The recovery scan on a well-formed prefix followed by a corrupt tail -/

/-- Well-formed record: the stored sizes describe the buffers and fit in
u64, and the key bytes are valid UTF-8 — a record the recovery scan indexes
rather than panics on.  Every record the engine itself writes is of this
shape (its keys come from `&str`). -/
def RecWF (m : MetaIndex) : Prop :=
  m.key_buf.length = m.key_size ∧ m.value_buf.length = m.value_size
    ∧ m.key_size < 18446744073709551616 ∧ m.value_size < 18446744073709551616
    ∧ validUTF8 m.key_buf = true

instance (m : MetaIndex) : Decidable (RecWF m) := by
  unfold RecWF
  infer_instance

theorem encodeAll_cons (m : MetaIndex) (t : List MetaIndex) :
    encodeAll (m :: t) = encodeRec m ++ encodeAll t := rfl

theorem length_le_encodeAll_length (rs : List MetaIndex) :
    rs.length ≤ (encodeAll rs).length := by
  induction rs with
  | nil => exact Nat.le_refl _
  | cons m t ih =>
    rw [encodeAll_cons, List.length_append, encodeRec_length]
    calc (m :: t).length = t.length + 1 := by rw [List.length_cons]
      _ ≤ (encodeAll t).length + (24 + m.key_buf.length + m.value_buf.length) := by omega
      _ = 24 + m.key_buf.length + m.value_buf.length + (encodeAll t).length := by omega

theorem scanStartF_spec (fid : Nat) :
    ∀ (rs : List MetaIndex) (fuel : Nat) (pre junk : Bytes) (idx : DataIndex),
      (∀ m ∈ rs, RecWF m) →
      get_index_from_file (pre ++ (encodeAll rs ++ junk)) (pre.length + (encodeAll rs).length)
        = none →
      rs.length < fuel →
      scanStartF fid (pre ++ (encodeAll rs ++ junk)) fuel pre.length idx
        = (applyRecords fid pre.length rs idx, Except.ok ())
  | [], fuel, pre, junk, idx => by
    intro _ hnone hfuel
    cases fuel with
    | zero => cases hfuel
    | succ f =>
      rw [scanStartF, applyRecords]
      by_cases hle : (pre ++ (encodeAll [] ++ junk)).length ≤ pre.length
      · rw [if_pos hle]
      · rw [if_neg hle]
        have h0 : (encodeAll []).length = 0 := rfl
        rw [h0, Nat.add_zero] at hnone
        rw [hnone]
  | m :: t, fuel, pre, junk, idx => by
    intro hwf hnone hfuel
    cases fuel with
    | zero => cases hfuel
    | succ f =>
      have hmwf : RecWF m := hwf m (List.mem_cons_self m t)
      obtain ⟨hk, hv, hks, hvs, hutf⟩ := hmwf
      have hshape : pre ++ (encodeAll (m :: t) ++ junk)
          = pre ++ (encodeRec m ++ (encodeAll t ++ junk)) := by
        rw [encodeAll_cons, List.append_assoc]
      have hdec := decode_append pre (encodeAll t ++ junk) m hk hv hks hvs
      have hlen1 : (pre ++ (encodeAll (m :: t) ++ junk)).length
          = pre.length + (24 + m.key_buf.length + m.value_buf.length)
              + (encodeAll t).length + junk.length := by
        rw [encodeAll_cons]
        simp [encodeRec_length]
        omega
      have hnle : ¬ (pre ++ (encodeAll (m :: t) ++ junk)).length ≤ pre.length := by
        rw [hlen1]
        omega
      rw [scanStartF, if_neg hnle, hshape, hdec]
      have hpre' : (pre ++ encodeRec m).length = pre.length + 24 + m.key_size + m.value_size := by
        rw [List.length_append, encodeRec_length, hk, hv]
        omega
      have hshape2 : pre ++ (encodeRec m ++ (encodeAll t ++ junk))
          = (pre ++ encodeRec m) ++ (encodeAll t ++ junk) := by
        rw [List.append_assoc]
      have hnone' : get_index_from_file
          ((pre ++ encodeRec m) ++ (encodeAll t ++ junk))
          ((pre ++ encodeRec m).length + (encodeAll t).length) = none := by
        rw [← hshape2, ← hshape]
        have : (pre ++ encodeRec m).length + (encodeAll t).length
            = pre.length + (encodeAll (m :: t)).length := by
          rw [List.length_append, encodeAll_cons, List.length_append]
          omega
        rw [this]
        exact hnone
      rw [applyRecords]
      simp only []
      rw [if_pos hutf]
      by_cases hvb : m.value_buf = []
      · rw [if_pos hvb, if_pos hvb, ← hpre', hshape2]
        exact scanStartF_spec fid t f (pre ++ encodeRec m) junk (mapErase m.key_buf idx)
          (fun x hx => hwf x (List.mem_cons_of_mem _ hx)) hnone'
          (by rw [List.length_cons] at hfuel; omega)
      · rw [if_neg hvb, if_neg hvb, ← hpre', hshape2]
        exact scanStartF_spec fid t f (pre ++ encodeRec m) junk
          (mapInsert m.key_buf ⟨fid, pre.length⟩ idx)
          (fun x hx => hwf x (List.mem_cons_of_mem _ hx)) hnone'
          (by rw [List.length_cons] at hfuel; omega)

/-- The segment shape of claim C7: well-formed records followed by a tail
at which record decoding fails — the file ending exactly there (`junk = []`),
a short read mid-record, or a header claiming sizes past the end. -/
def GoodSeg (f : Bytes) : Prop :=
  ∃ rs junk, (∀ m ∈ rs, RecWF m)
    ∧ get_index_from_file (encodeAll rs ++ junk) (encodeAll rs).length = none
    ∧ f = encodeAll rs ++ junk

/-- The wrapper-level scan result on such a segment: the records of the
prefix are folded into the index in order and the scan ends without error
(in particular without the panic outcome). -/
theorem scanStart_goodSeg (fid : Nat) (rs : List MetaIndex) (junk : Bytes) (idx : DataIndex)
    (hwf : ∀ m ∈ rs, RecWF m)
    (hbad : get_index_from_file (encodeAll rs ++ junk) (encodeAll rs).length = none) :
    scanStart fid (encodeAll rs ++ junk) idx = (applyRecords fid 0 rs idx, Except.ok ()) := by
  have hnone : get_index_from_file (([] : Bytes) ++ (encodeAll rs ++ junk))
      (([] : Bytes).length + (encodeAll rs).length) = none := by
    simpa using hbad
  have hfuel : rs.length < (encodeAll rs ++ junk).length + 1 := by
    have := length_le_encodeAll_length rs
    rw [List.length_append]
    omega
  have hmain := scanStartF_spec fid rs ((encodeAll rs ++ junk).length + 1) [] junk idx hwf
    hnone hfuel
  unfold scanStart
  simpa using hmain

theorem startScanFile_ok (s : Sys) (fid : Nat)
    (hgood : ∀ i f, mapLookup (FName.seg i) s.disk = some f → GoodSeg f) :
    (startScanFile s fid).2 = .ok () := by
  unfold startScanFile
  cases hlk : mapLookup (FName.seg fid) s.disk with
  | none =>
    simp only [hlk]
    rfl
  | some f =>
    obtain ⟨rs, junk, hwf, hbad, hshape⟩ := hgood fid f hlk
    simp only [hlk, Option.getD_some]
    subst hshape
    rw [scanStart_goodSeg fid rs junk _ hwf hbad]

theorem startScanAll_ok :
    ∀ (files : List Nat) (s : Sys),
      (∀ i f, mapLookup (FName.seg i) s.disk = some f → GoodSeg f) →
      (startScanAll s files).2 = .ok ()
  | [], _, _ => rfl
  | a :: t, s, hgood => by
    unfold startScanAll
    rcases hsf : startScanFile s a with ⟨s', r⟩
    have hok : r = .ok () := by
      have h := startScanFile_ok s a hgood
      rw [hsf] at h
      exact h
    subst hok
    simp only []
    have hd : s'.disk = s.disk := by
      have hp := (startScanFile_preserves s a).1
      rw [hsf] at hp
      exact hp
    exact startScanAll_ok t s' (by rw [hd]; exact hgood)

/-- `open` succeeds on a directory whose hint file is absent and whose
segments all have the well-formed-prefix-then-corrupt-tail shape. -/
theorem start_ok_of_good (s : Sys)
    (hhint : mapLookup (FName.hint s.inner.current_file_id) s.disk = none)
    (hgood : ∀ i f, mapLookup (FName.seg i) s.disk = some f → GoodSeg f) :
    (start s).2 = .ok () := by
  unfold start read_hint_file
  simp only [hhint]
  rcases hscan : startScanAll s (List.insertionSort (fun a b => a ≤ b) (segIds s.disk))
    with ⟨s2, r2⟩
  have hok : r2 = .ok () := by
    have h := startScanAll_ok (List.insertionSort (fun a b => a ≤ b) (segIds s.disk)) s hgood
    rw [hscan] at h
    exact h
  subst hok
  rfl

/-! ### Claims -/

/-- Claim C9: `read` (`get`) never modifies engine state — for every key,
present or absent, the state returned alongside the result is exactly the
input state: index, segment registry, current file id, byte-offset counter
and every file's contents are unchanged. -/
theorem c9_read_leaves_state_unchanged (id : Bytes) (s : Sys) : (read id s).1 = s := by
  unfold read
  split
  · rfl
  · split <;> rfl

/-- Claim C1 (code bug): running `compact()` does change the observable
store.  On a fresh engine, after `put(k, v)` the key reads back as `v`;
`compact` succeeds, but afterwards `get(k)` fails with an I/O error, because
compaction deletes the old segment files without rebuilding the in-memory
index, which still points into them (and the surviving data now lives under
`log-file-1.log`, a name recovery does not even enumerate). -/
theorem c1_compact_changes_observable_store :
    (read [107] (append false [107] [118] 0 (start (newSys [])).1).1).2 = .ok [118]
    ∧ (compact 0 0 (append false [107] [118] 0 (start (newSys [])).1).1).2 = .ok ()
    ∧ (read [107] (compact 0 0 (append false [107] [118] 0 (start (newSys [])).1).1).1).2
        = .error .ioError := by
  exact ⟨rfl, rfl, rfl⟩

/-- Claim C3 (code bug): when the durable append of a `put` fails with an
I/O error, the error is surfaced to the caller, but the in-memory state is
NOT rolled back: the source inserts the index entry and advances
`byte_offset` before attempting the write.  Here the fresh engine has an
empty index and `byte_offset = 0`; a `put("k","v")` whose write fails still
leaves the key indexed at `(2, 0)` and `byte_offset = 26`, while the disk is
untouched. -/
theorem c3_failed_write_keeps_memory_update :
    (append true [107] [118] 5 (start (newSys [])).1).2 = .error .ioError
    ∧ (start (newSys [])).1.inner.data_index = []
    ∧ (start (newSys [])).1.inner.byte_offset = 0
    ∧ (append true [107] [118] 5 (start (newSys [])).1).1.inner.data_index
        = [([107], ⟨2, 0⟩)]
    ∧ (append true [107] [118] 5 (start (newSys [])).1).1.inner.byte_offset = 26
    ∧ (append true [107] [118] 5 (start (newSys [])).1).1.disk = (start (newSys [])).1.disk := by
  exact ⟨rfl, rfl, rfl, rfl, rfl, rfl⟩

/-- Claim C4 (code bug): file ids are not strictly increasing over the
engine's lifetime.  A fresh `start` assigns active id 2; a subsequent
`compact` succeeds and assigns id 1, and the registry still carries the
sealed id 2, which exceeds the new active id. -/
theorem c4_compact_breaks_monotonicity :
    (start (newSys [])).1.inner.current_file_id = 2
    ∧ (compact 0 0 (start (newSys [])).1).2 = .ok ()
    ∧ (compact 0 0 (start (newSys [])).1).1.inner.current_file_id = 1
    ∧ mapLookup 2 (compact 0 0 (start (newSys [])).1).1.inner.file_index
        = some (FName.seg 2) := by
  exact ⟨rfl, rfl, rfl, rfl⟩

/-- Claim C6 (code bug): the offset stored by a successful write does not
always equal the byte position at which the record begins.  After
`put("k","v")` then `update("k","w")` (which advances the counter by
`16 + len` although `24 + len` bytes are written), the next
`put("x","y")` records offset 44 while the active segment already holds 52
bytes, so the record actually begins at byte 52; the byte-offset counter
(70) likewise differs from the true file length (78). -/
theorem c6_stored_offset_diverges_from_position :
    (update false [107] [119] 0 (append false [107] [118] 0 (start (newSys [])).1).1).2
      = .ok ()
    ∧ (append false [120] [121] 0
        (update false [107] [119] 0
          (append false [107] [118] 0 (start (newSys [])).1).1).1).2 = .ok ()
    ∧ mapLookup [120]
        (append false [120] [121] 0
          (update false [107] [119] 0
            (append false [107] [118] 0 (start (newSys [])).1).1).1).1.inner.data_index
        = some ⟨2, 44⟩
    ∧ ((mapLookup (FName.seg 2)
          (update false [107] [119] 0
            (append false [107] [118] 0 (start (newSys [])).1).1).1.disk).getD []).length
        = 52
    ∧ ¬ (44 : Nat) = 52
    ∧ (append false [120] [121] 0
        (update false [107] [119] 0
          (append false [107] [118] 0 (start (newSys [])).1).1).1).1.inner.byte_offset = 70
    ∧ ((mapLookup (FName.seg 2)
          (append false [120] [121] 0
            (update false [107] [119] 0
              (append false [107] [118] 0 (start (newSys [])).1).1).1).1.disk).getD []).length
        = 78 := by
  refine ⟨rfl, rfl, rfl, rfl, by decide, rfl, rfl⟩

/-- Claim C2, counterexample: in the reachable state built by
`open; put("k","v"); delete("k")` (the source's `delete` appends a 25-byte
tombstone without advancing `byte_offset`), a subsequent `put("x","y")`
records a stale offset, and `get("x")` returns the tombstone's empty value
instead of `"y"`. -/
theorem c2_counterexample_roundtrip_fails :
    (delete false [107] (append false [107] [118] 0 (start (newSys [])).1).1).2 = .ok ()
    ∧ (append false [120] [121] 0
        (delete false [107] (append false [107] [118] 0 (start (newSys [])).1).1).1).2
        = .ok ()
    ∧ (read [120]
        (append false [120] [121] 0
          (delete false [107]
            (append false [107] [118] 0 (start (newSys [])).1).1).1).1).2 = .ok []
    ∧ ¬ ((read [120]
        (append false [120] [121] 0
          (delete false [107]
            (append false [107] [118] 0 (start (newSys [])).1).1).1).1).2 = .ok [121]) := by
  refine ⟨rfl, rfl, rfl, by decide⟩

/-- Claim C5, counterexample: on an empty directory `start` succeeds and
sets the next active file id to 2, not 1 (`unwrap_or(0x1)` followed by
`+ 1`). -/
theorem c5_counterexample_fresh_id_is_two :
    (start (newSys [])).2 = .ok ()
    ∧ segIds (newSys []).disk = []
    ∧ (start (newSys [])).1.inner.current_file_id = 2
    ∧ ¬ ((start (newSys [])).1.inner.current_file_id = 1) := by
  refine ⟨rfl, rfl, rfl, by decide⟩

theorem getLast?_none {α : Type} : ∀ {l : List α}, l.getLast? = none → l = []
  | [], _ => rfl
  | [a], h => by rw [List.getLast?_singleton] at h; cases h
  | a :: b :: t, h => by
    rw [List.getLast?_cons_cons] at h
    exact absurd (getLast?_none h) (List.cons_ne_nil b t)

/-- Claim C5 (amended): after a successful `open`, the next active file id
is `M + 1` where `M` is the largest existing segment id when segment files
exist, and 2 (not 1) when none exist, and a new empty active segment is
created on disk under that id. -/
theorem c5_next_active_id (s s' : Sys) (h : start s = (s', Except.ok ())) :
    (segIds s.disk = [] → s'.inner.current_file_id = 2)
    ∧ (segIds s.disk ≠ [] →
        (s'.inner.current_file_id - 1) ∈ segIds s.disk
          ∧ ∀ i ∈ segIds s.disk, i < s'.inner.current_file_id)
    ∧ mapLookup (FName.seg s'.inner.current_file_id) s'.disk = some []
    ∧ s'.inner.path = FName.seg s'.inner.current_file_id := by
  rcases hre : read_hint_file s with ⟨s1, r1⟩
  have hd1 : s1.disk = s.disk := by
    have := (read_hint_preserves s).1
    rw [hre] at this
    exact this
  unfold start at h
  rw [hre] at h
  cases r1 with
  | error e => simp at h
  | ok u =>
    simp only [] at h
    set F := List.insertionSort (fun a b => a ≤ b) (segIds s1.disk) with hF
    rcases hscan : startScanAll s1 F with ⟨s2, r2⟩
    rw [hscan] at h
    cases r2 with
    | error e => simp at h
    | ok u2 =>
      simp only [] at h
      rw [Prod.mk.injEq] at h
      obtain ⟨h1, _⟩ := h
      subst h1
      rw [← hd1]
      set idv := F.getLast?.getD 1 with hid
      set s3 : Sys := { s2 with inner.current_file_id := idv + 1 } with hs3
      have hcur : (create s3).inner.current_file_id = idv + 1 := rfl
      have hd3 : s3.disk = s1.disk := by
        rw [hs3]
        have hp := (startScanAll_preserves F s1).1
        rw [hscan] at hp
        exact hp
      have hFperm : ∀ x, x ∈ F ↔ x ∈ segIds s1.disk := by
        intro x
        rw [hF]
        exact List.mem_insertionSort (fun a b => a ≤ b)
      refine ⟨?_, ?_, ?_, ?_⟩
      · intro hnil
        have : F = [] := by
          rw [hF, hnil]
          rfl
        rw [hcur, hid, this]
        rfl
      · intro hne
        cases hM : F.getLast? with
        | none =>
          exfalso
          have h0 : F = [] := getLast?_none hM
          have : segIds s1.disk = [] :=
            List.eq_nil_of_length_eq_zero (by
              rw [← List.length_insertionSort (fun a b => a ≤ b) (segIds s1.disk), ← hF, h0]
              rfl)
          exact hne this
        | some M =>
          have hMmem : M ∈ segIds s1.disk := (hFperm M).mp (mem_of_getLast? hM)
          have hub : ∀ x ∈ F, x ≤ M :=
            sorted_last_ub F (List.sorted_insertionSort (fun a b => a ≤ b) (segIds s1.disk)) M hM
          have hidM : idv = M := by rw [hid, hM]; rfl
          constructor
          · rw [hcur, hidM]
            simpa using hMmem
          · intro i hi
            have : i ≤ M := hub i ((hFperm i).mpr hi)
            rw [hcur, hidM]
            omega
      · have habs : mapLookup (FName.seg (idv + 1)) s3.disk = none := by
          rw [hd3]
          cases hlk : mapLookup (FName.seg (idv + 1)) s1.disk with
          | none => rfl
          | some v =>
            exfalso
            have hmem := segIds_of_lookup hlk
            cases hM : F.getLast? with
            | none =>
              have h0 : F = [] := getLast?_none hM
              have : segIds s1.disk = [] :=
                List.eq_nil_of_length_eq_zero (by
                  rw [← List.length_insertionSort (fun a b => a ≤ b) (segIds s1.disk), ← hF, h0]
                  rfl)
              rw [this] at hmem
              cases hmem
            | some M =>
              have hub : ∀ x ∈ F, x ≤ M :=
                sorted_last_ub F (List.sorted_insertionSort (fun a b => a ≤ b) (segIds s1.disk))
                  M hM
              have hle : idv + 1 ≤ M := hub (idv + 1) ((hFperm (idv + 1)).mpr hmem)
              have hidM : idv = M := by rw [hid, hM]; rfl
              omega
        rw [hcur]
        have := create_disk_absent s3 (by
          rw [show s3.inner.current_file_id = idv + 1 from rfl]
          exact habs)
        rw [show s3.inner.current_file_id = idv + 1 from rfl] at this
        exact this
      · rw [hcur]
        exact (create_inner s3).1

/-- Witness for claim C5's theorem: a directory holding segments 5 and 3
plus an unrelated hint file; `open` succeeds, picks active id 6, and
creates `log-file-6` empty. -/
theorem c5_next_active_id_witness :
    start (newSys [(FName.seg 5, []), (FName.hint 9, [1]), (FName.seg 3, [])])
        = ((start (newSys [(FName.seg 5, []), (FName.hint 9, [1]), (FName.seg 3, [])])).1,
           Except.ok ())
    ∧ ((segIds (newSys [(FName.seg 5, []), (FName.hint 9, [1]), (FName.seg 3, [])]).disk = [] →
          (start (newSys [(FName.seg 5, []), (FName.hint 9, [1]),
            (FName.seg 3, [])])).1.inner.current_file_id = 2)
        ∧ (segIds (newSys [(FName.seg 5, []), (FName.hint 9, [1]), (FName.seg 3, [])]).disk ≠ [] →
            ((start (newSys [(FName.seg 5, []), (FName.hint 9, [1]),
                (FName.seg 3, [])])).1.inner.current_file_id - 1)
              ∈ segIds (newSys [(FName.seg 5, []), (FName.hint 9, [1]), (FName.seg 3, [])]).disk
            ∧ ∀ i ∈ segIds (newSys [(FName.seg 5, []), (FName.hint 9, [1]),
                (FName.seg 3, [])]).disk,
                i < (start (newSys [(FName.seg 5, []), (FName.hint 9, [1]),
                  (FName.seg 3, [])])).1.inner.current_file_id)
        ∧ mapLookup
            (FName.seg (start (newSys [(FName.seg 5, []), (FName.hint 9, [1]),
              (FName.seg 3, [])])).1.inner.current_file_id)
            (start (newSys [(FName.seg 5, []), (FName.hint 9, [1]), (FName.seg 3, [])])).1.disk
            = some []
        ∧ (start (newSys [(FName.seg 5, []), (FName.hint 9, [1]),
            (FName.seg 3, [])])).1.inner.path
            = FName.seg (start (newSys [(FName.seg 5, []), (FName.hint 9, [1]),
                (FName.seg 3, [])])).1.inner.current_file_id) :=
  ⟨by decide,
    c5_next_active_id (newSys [(FName.seg 5, []), (FName.hint 9, [1]), (FName.seg 3, [])])
      (start (newSys [(FName.seg 5, []), (FName.hint 9, [1]), (FName.seg 3, [])])).1
      (by decide)⟩

/-- Claim C2 (amended): the `put; get` round-trip holds in every state whose
book-keeping is aligned — the active path is `log-file-{current_file_id}`,
registered under `current_file_id`, present on disk, and `byte_offset`
equals the active file's true length.  Every state reachable by `open`,
`put` and `get` alone is of this shape; the counterexample above shows a
state reachable with `delete` (or `update`/`compact`) where the round-trip
fails.  For a non-empty key whose length (and the value's) fits in u64,
`put(K, V)` succeeds and an immediate `get(K)` returns exactly `V`. -/
theorem c2_put_get_roundtrip (k v c : Bytes) (ts : Nat) (s : Sys)
    (hk : ¬ k = [])
    (hkl : k.length < 18446744073709551616) (hvl : v.length < 18446744073709551616)
    (hpath : s.inner.path = FName.seg s.inner.current_file_id)
    (hreg : mapLookup s.inner.current_file_id s.inner.file_index = some s.inner.path)
    (hdisk : mapLookup s.inner.path s.disk = some c)
    (halign : c.length = s.inner.byte_offset) :
    (append false k v ts s).2 = .ok ()
    ∧ read k (append false k v ts s).1 = ((append false k v ts s).1, .ok v) := by
  have happ := append_eq_split k v c ts s hk hdisk
  have hdec0 := decode_append c [] ⟨ts, k.length, k, v.length, v⟩ rfl rfl hkl hvl
  rw [List.append_nil] at hdec0
  have hdec : get_index_from_file (c ++ encodeRec ⟨ts, k.length, k, v.length, v⟩)
      s.inner.byte_offset
      = some (⟨ts % 18446744073709551616, k.length, k, v.length, v⟩,
          c.length + 24 + k.length + v.length) := by
    rw [← halign]
    exact hdec0
  set s1 : Sys :=
    { s with
        inner.data_index :=
          mapInsert k ⟨s.inner.current_file_id, s.inner.byte_offset⟩ s.inner.data_index,
        inner.byte_offset := s.inner.byte_offset + (v.length + k.length + 8 * 3),
        disk := mapInsert s.inner.path
          (c ++ encodeRec ⟨ts, k.length, k, v.length, v⟩) s.disk } with hs1
  have hlo : mapLookup s1.inner.path s1.disk
      = some (c ++ encodeRec ⟨ts, k.length, k, v.length, v⟩) := by
    rw [hs1]
    exact mapLookup_insert_self _ _ _
  rw [happ, split_eq_ite s1 _ hlo]
  by_cases hbig : (c ++ encodeRec ⟨ts, k.length, k, v.length, v⟩).length > 1024
  · rw [if_pos hbig]
    refine ⟨rfl, ?_⟩
    have hne : s.inner.current_file_id ≠ s.inner.current_file_id + 1 :=
      Nat.ne_of_lt (Nat.lt_succ_self _)
    have h2 : mapLookup s.inner.current_file_id
        (create { s1 with inner.current_file_id := s1.inner.current_file_id + 1
          }).inner.file_index = some s.inner.path := by
      rw [show (create { s1 with inner.current_file_id := s1.inner.current_file_id + 1
          }).inner.file_index
        = mapInsert (s.inner.current_file_id + 1) (FName.seg (s.inner.current_file_id + 1))
            s.inner.file_index from rfl]
      rw [mapLookup_insert_ne _ _ hne]
      exact hreg
    have h3 : mapLookup s.inner.path
        (create { s1 with inner.current_file_id := s1.inner.current_file_id + 1 }).disk
        = some (c ++ encodeRec ⟨ts, k.length, k, v.length, v⟩) := by
      rw [create_disk_lookup_ne]
      · exact hlo
      · rw [hpath]
        exact seg_ne_of_id_ne hne
    exact read_of_lookups k _ ⟨s.inner.current_file_id, s.inner.byte_offset⟩ s.inner.path
      _ _ _ (mapLookup_insert_self _ _ _) h2 h3 hdec
  · rw [if_neg hbig]
    refine ⟨rfl, ?_⟩
    exact read_of_lookups k s1 ⟨s.inner.current_file_id, s.inner.byte_offset⟩ s.inner.path
      _ _ _ (mapLookup_insert_self _ _ _) hreg hlo hdec

theorem insert_index_value_none (fault : Bool) (m : MetaIndex) (s : Sys)
    (h : mapLookup s.inner.path s.disk = none) :
    insert_index_value fault m s = (s, .error .ioError) := by
  unfold insert_index_value
  rw [h]

/-- Claim C7: during recovery, a record whose header claims sizes extending
past the end of the file, or a short read mid-record, ends that segment's
scan without failing the open, and the records decoded before it — the
records the program indexes, i.e. well-formed ones with valid-UTF-8 keys
(a decodable record with non-UTF-8 key bytes makes the source panic at
`String::from_utf8`, a different failure than the one this claim is about)
— are still indexed.  Formally: for any such record list `rs` followed by a
tail at which decoding fails, the recovery scan of the segment equals the
plain index fold over `rs` and ends without error; and `open` succeeds on
any hint-free directory all of whose segments have this
records-then-corrupt-tail shape. -/
theorem c7_corrupt_tail_tolerated (fid : Nat) (rs : List MetaIndex) (junk : Bytes)
    (idx : DataIndex) (s : Sys)
    (hwf : ∀ m ∈ rs, RecWF m)
    (hbad : get_index_from_file (encodeAll rs ++ junk) (encodeAll rs).length = none)
    (hhint : mapLookup (FName.hint s.inner.current_file_id) s.disk = none)
    (hgood : ∀ i f, mapLookup (FName.seg i) s.disk = some f → GoodSeg f) :
    scanStart fid (encodeAll rs ++ junk) idx = (applyRecords fid 0 rs idx, Except.ok ())
    ∧ (start s).2 = .ok () :=
  ⟨scanStart_goodSeg fid rs junk idx hwf hbad, start_ok_of_good s hhint hgood⟩

/-- Witness for claim C7's theorem: one good 26-byte record (key `"k"`,
value `"v"`) followed by the 3-byte tail `[9, 9, 9]`, which is too short for
a record header; the directory holds that segment under id 4 and no hint
file.  The scan indexes the good record at offset 0 without error and
`open` succeeds. -/
theorem c7_corrupt_tail_tolerated_witness :
    (∀ m ∈ [MetaIndex.mk 0 1 [107] 1 [118]], RecWF m)
    ∧ get_index_from_file (encodeAll [MetaIndex.mk 0 1 [107] 1 [118]] ++ [9, 9, 9])
        (encodeAll [MetaIndex.mk 0 1 [107] 1 [118]]).length = none
    ∧ mapLookup
        (FName.hint (newSys [(FName.seg 4,
          encodeAll [MetaIndex.mk 0 1 [107] 1 [118]] ++ [9, 9, 9])]).inner.current_file_id)
        (newSys [(FName.seg 4,
          encodeAll [MetaIndex.mk 0 1 [107] 1 [118]] ++ [9, 9, 9])]).disk = none
    ∧ (∀ i f, mapLookup (FName.seg i)
          (newSys [(FName.seg 4,
            encodeAll [MetaIndex.mk 0 1 [107] 1 [118]] ++ [9, 9, 9])]).disk = some f →
        GoodSeg f)
    ∧ (scanStart 7 (encodeAll [MetaIndex.mk 0 1 [107] 1 [118]] ++ [9, 9, 9]) []
          = (applyRecords 7 0 [MetaIndex.mk 0 1 [107] 1 [118]] [], Except.ok ())
        ∧ (start (newSys [(FName.seg 4,
            encodeAll [MetaIndex.mk 0 1 [107] 1 [118]] ++ [9, 9, 9])])).2 = .ok ()) := by
  have hg : ∀ i f, mapLookup (FName.seg i)
      (newSys [(FName.seg 4,
        encodeAll [MetaIndex.mk 0 1 [107] 1 [118]] ++ [9, 9, 9])]).disk = some f →
      GoodSeg f := by
    intro i f hf
    simp only [mapLookup] at hf
    by_cases h4 : FName.seg 4 = FName.seg i
    · rw [if_pos h4] at hf
      cases hf
      exact ⟨[MetaIndex.mk 0 1 [107] 1 [118]], [9, 9, 9], by decide, by decide, rfl⟩
    · rw [if_neg h4] at hf
      exact Option.noConfusion hf
  exact ⟨by decide, by decide, by decide, hg,
    c7_corrupt_tail_tolerated 7 [MetaIndex.mk 0 1 [107] 1 [118]] [9, 9, 9] []
      (newSys [(FName.seg 4, encodeAll [MetaIndex.mk 0 1 [107] 1 [118]] ++ [9, 9, 9])])
      (by decide) (by decide) (by decide) hg⟩

/-- Claim C8, counterexample: for the empty key — which is absent from the
index of a freshly opened engine — `update` fails with the empty-key
(InvalidKey) error, not with NotFound. -/
theorem c8_counterexample_empty_key :
    mapLookup [] (start (newSys [])).1.inner.data_index = none
    ∧ (update false [] [50] 0 (start (newSys [])).1).2 = .error .invalidKey
    ∧ ¬ ((update false [] [50] 0 (start (newSys [])).1).2 = .error .notFound) := by
  refine ⟨rfl, rfl, by decide⟩

/-- Claim C8 (amended): for a NON-empty key absent from the index, `update`
fails with NotFound and leaves the state untouched (the empty key gets
InvalidKey instead); for a present key, `update` performs exactly the
appends and index changes `put` would — same disk, index, registry, id and
path — except that the byte-offset counter ends 8 lower whenever no
rotation occurs (`8*2` in `update` vs `8*3` in `append`). -/
theorem c8_update_vs_put (k v : Bytes) (ts : Nat) (s : Sys) (hk : ¬ k = []) :
    (mapLookup k s.inner.data_index = none →
      update false k v ts s = (s, Except.error Err.notFound))
    ∧ ∀ iv, mapLookup k s.inner.data_index = some iv →
        (update false k v ts s).2 = (append false k v ts s).2
        ∧ (update false k v ts s).1.disk = (append false k v ts s).1.disk
        ∧ (update false k v ts s).1.inner.data_index
            = (append false k v ts s).1.inner.data_index
        ∧ (update false k v ts s).1.inner.current_file_id
            = (append false k v ts s).1.inner.current_file_id
        ∧ (update false k v ts s).1.inner.path = (append false k v ts s).1.inner.path
        ∧ (update false k v ts s).1.inner.file_index
            = (append false k v ts s).1.inner.file_index
        ∧ ((update false k v ts s).1.inner.byte_offset
              = (append false k v ts s).1.inner.byte_offset
            ∨ (update false k v ts s).1.inner.byte_offset + 8
              = (append false k v ts s).1.inner.byte_offset) := by
  constructor
  · intro hnone
    unfold update
    rw [if_neg hk, hnone]
  · intro iv hin
    cases hdk : mapLookup s.inner.path s.disk with
    | none =>
      have hu : update false k v ts s
          = ({ s with
                inner.data_index := mapInsert k ⟨s.inner.current_file_id, s.inner.byte_offset⟩
                  s.inner.data_index,
                inner.byte_offset := s.inner.byte_offset + (v.length + k.length + 8 * 2) },
             Except.error Err.ioError) := by
        unfold update
        rw [if_neg hk, hin]
        exact insert_index_value_none false _ _ hdk
      have ha : append false k v ts s
          = ({ s with
                inner.data_index := mapInsert k ⟨s.inner.current_file_id, s.inner.byte_offset⟩
                  s.inner.data_index,
                inner.byte_offset := s.inner.byte_offset + (v.length + k.length + 8 * 3) },
             Except.error Err.ioError) := by
        unfold append
        rw [if_neg hk]
        exact insert_index_value_none false _ _ hdk
      rw [hu, ha]
      exact ⟨rfl, rfl, rfl, rfl, rfl, rfl,
        Or.inr (show s.inner.byte_offset + (v.length + k.length + 8 * 2) + 8
          = s.inner.byte_offset + (v.length + k.length + 8 * 3) by omega)⟩
    | some c =>
      have hu := update_eq_split k v c ts s iv hk hin hdk
      have ha := append_eq_split k v c ts s hk hdk
      rw [hu, ha]
      set s1u : Sys :=
        { s with
            inner.data_index := mapInsert k ⟨s.inner.current_file_id, s.inner.byte_offset⟩
              s.inner.data_index,
            inner.byte_offset := s.inner.byte_offset + (v.length + k.length + 8 * 2),
            disk := mapInsert s.inner.path
              (c ++ encodeRec ⟨ts, k.length, k, v.length, v⟩) s.disk } with hs1u
      set s1a : Sys :=
        { s with
            inner.data_index := mapInsert k ⟨s.inner.current_file_id, s.inner.byte_offset⟩
              s.inner.data_index,
            inner.byte_offset := s.inner.byte_offset + (v.length + k.length + 8 * 3),
            disk := mapInsert s.inner.path
              (c ++ encodeRec ⟨ts, k.length, k, v.length, v⟩) s.disk } with hs1a
      have hlou : mapLookup s1u.inner.path s1u.disk
          = some (c ++ encodeRec ⟨ts, k.length, k, v.length, v⟩) := by
        rw [hs1u]
        exact mapLookup_insert_self _ _ _
      have hloa : mapLookup s1a.inner.path s1a.disk
          = some (c ++ encodeRec ⟨ts, k.length, k, v.length, v⟩) := by
        rw [hs1a]
        exact mapLookup_insert_self _ _ _
      rw [split_eq_ite s1u _ hlou, split_eq_ite s1a _ hloa]
      by_cases hbig : (c ++ encodeRec ⟨ts, k.length, k, v.length, v⟩).length > 1024
      · rw [if_pos hbig, if_pos hbig]
        exact ⟨rfl, rfl, rfl, rfl, rfl, rfl, Or.inl rfl⟩
      · rw [if_neg hbig, if_neg hbig]
        exact ⟨rfl, rfl, rfl, rfl, rfl, rfl,
          Or.inr (show s.inner.byte_offset + (v.length + k.length + 8 * 2) + 8
            = s.inner.byte_offset + (v.length + k.length + 8 * 3) by omega)⟩

/-- Witness for claim C8's theorem: the engine after `open; put("k","v")`,
updating the present key `"k"` with `"2"`. -/
theorem c8_update_vs_put_witness :
    (¬ ([107] : Bytes) = [])
    ∧ ((mapLookup [107]
          (append false [107] [118] 0 (start (newSys [])).1).1.inner.data_index = none →
        update false [107] [50] 1 (append false [107] [118] 0 (start (newSys [])).1).1
          = ((append false [107] [118] 0 (start (newSys [])).1).1, Except.error Err.notFound))
      ∧ ∀ iv, mapLookup [107]
            (append false [107] [118] 0 (start (newSys [])).1).1.inner.data_index = some iv →
          (update false [107] [50] 1 (append false [107] [118] 0 (start (newSys [])).1).1).2
              = (append false [107] [50] 1
                  (append false [107] [118] 0 (start (newSys [])).1).1).2
          ∧ (update false [107] [50] 1
                (append false [107] [118] 0 (start (newSys [])).1).1).1.disk
              = (append false [107] [50] 1
                  (append false [107] [118] 0 (start (newSys [])).1).1).1.disk
          ∧ (update false [107] [50] 1
                (append false [107] [118] 0 (start (newSys [])).1).1).1.inner.data_index
              = (append false [107] [50] 1
                  (append false [107] [118] 0 (start (newSys [])).1).1).1.inner.data_index
          ∧ (update false [107] [50] 1
                (append false [107] [118] 0 (start (newSys [])).1).1).1.inner.current_file_id
              = (append false [107] [50] 1
                  (append false [107] [118] 0 (start (newSys [])).1).1).1.inner.current_file_id
          ∧ (update false [107] [50] 1
                (append false [107] [118] 0 (start (newSys [])).1).1).1.inner.path
              = (append false [107] [50] 1
                  (append false [107] [118] 0 (start (newSys [])).1).1).1.inner.path
          ∧ (update false [107] [50] 1
                (append false [107] [118] 0 (start (newSys [])).1).1).1.inner.file_index
              = (append false [107] [50] 1
                  (append false [107] [118] 0 (start (newSys [])).1).1).1.inner.file_index
          ∧ ((update false [107] [50] 1
                  (append false [107] [118] 0 (start (newSys [])).1).1).1.inner.byte_offset
                = (append false [107] [50] 1
                    (append false [107] [118] 0 (start (newSys [])).1).1).1.inner.byte_offset
              ∨ (update false [107] [50] 1
                    (append false [107] [118] 0
                      (start (newSys [])).1).1).1.inner.byte_offset + 8
                  = (append false [107] [50] 1
                      (append false [107] [118] 0
                        (start (newSys [])).1).1).1.inner.byte_offset)) :=
  ⟨by decide,
    c8_update_vs_put [107] [50] 1 (append false [107] [118] 0 (start (newSys [])).1).1
      (by decide)⟩

/-- Witness for claim C2's theorem: the aligned state reached by a fresh
`open` (active path `log-file-2`, empty, `byte_offset = 0`), with
`K = "k"`, `V = "v"`. -/
theorem c2_put_get_roundtrip_witness :
    (¬ ([107] : Bytes) = [])
    ∧ (start (newSys [])).1.inner.path
        = FName.seg (start (newSys [])).1.inner.current_file_id
    ∧ mapLookup (start (newSys [])).1.inner.current_file_id
        (start (newSys [])).1.inner.file_index = some (start (newSys [])).1.inner.path
    ∧ mapLookup (start (newSys [])).1.inner.path (start (newSys [])).1.disk = some []
    ∧ ((append false [107] [118] 3 (start (newSys [])).1).2 = .ok ()
        ∧ read [107] (append false [107] [118] 3 (start (newSys [])).1).1
            = ((append false [107] [118] 3 (start (newSys [])).1).1, .ok [118])) :=
  ⟨by decide, rfl, rfl, rfl,
    c2_put_get_roundtrip [107] [118] [] 3 (start (newSys [])).1
      (by decide) (by decide) (by decide) rfl rfl rfl rfl⟩

/-- Claim C10: for a live key (one whose index entry resolves to a record on
disk, and whose read-back value bytes are valid UTF-8 — otherwise the source
panics at `String::from_utf8` and appends nothing; every value the engine
itself wrote at the recorded position is valid, coming from a `&str`), the
tombstone appended by `delete` carries the key bytes, the stored key size
and the TIMESTAMP of the record being deleted — read back from disk, not the
deletion-time clock (the model's `delete` takes no timestamp because the
source never consults the clock there) — together with value size 0 and an
empty value payload; after the append the key is gone from the index. -/
theorem c10_delete_tombstone (id c : Bytes) (s : Sys) (m : MetaIndex)
    (hm : get_index_value id s = .ok m)
    (hutf : validUTF8 m.value_buf = true)
    (hdisk : mapLookup s.inner.path s.disk = some c)
    (hact : s.inner.path = FName.seg s.inner.current_file_id) :
    (delete false id s).2 = .ok ()
    ∧ mapLookup s.inner.path (delete false id s).1.disk
        = some (c ++ encodeRec ⟨m.timestamp, m.key_size, m.key_buf, 0, []⟩)
    ∧ mapLookup id (delete false id s).1.inner.data_index = none := by
  obtain ⟨mts, mks, mkb, mvs, mvb⟩ := m
  have hiiv : insert_index_value false
      { MetaIndex.mk mts mks mkb mvs mvb with value_size := 0, value_buf := [] } s
      = split
          { s with
              disk := mapInsert s.inner.path
                (c ++ encodeRec ⟨mts, mks, mkb, 0, []⟩) s.disk } := by
    unfold insert_index_value
    rw [hdisk]
    rfl
  set sD : Sys :=
    { s with
        disk := mapInsert s.inner.path (c ++ encodeRec ⟨mts, mks, mkb, 0, []⟩) s.disk }
    with hsD
  have hlo : mapLookup sD.inner.path sD.disk = some (c ++ encodeRec ⟨mts, mks, mkb, 0, []⟩) := by
    rw [hsD]
    exact mapLookup_insert_self _ _ _
  unfold delete
  rw [hm]
  simp only []
  rw [if_pos hutf]
  rw [hiiv, split_eq_ite sD _ hlo]
  by_cases hbig : (c ++ encodeRec ⟨mts, mks, mkb, 0, []⟩).length > 1024
  · rw [if_pos hbig]
    simp only []
    refine ⟨by trivial, ?_, ?_⟩
    · have hstep : mapLookup s.inner.path
          (create { sD with inner.current_file_id := sD.inner.current_file_id + 1 }).disk
          = mapLookup s.inner.path sD.disk := by
        apply create_disk_lookup_ne
        rw [hact]
        exact seg_ne_of_id_ne (Nat.ne_of_lt (Nat.lt_succ_self _))
      rw [hstep]
      exact hlo
    · exact mapLookup_erase_self _ _
  · rw [if_neg hbig]
    simp only []
    refine ⟨by trivial, ?_, ?_⟩
    · exact hlo
    · exact mapLookup_erase_self _ _

/-- Witness for claim C10's theorem: `open; put("k","v")` at timestamp 77,
then delete `"k"`; the appended tombstone reuses timestamp 77, key `"k"`
and an empty value, and `"k"` leaves the index. -/
theorem c10_delete_tombstone_witness :
    get_index_value [107] (append false [107] [118] 77 (start (newSys [])).1).1
        = .ok ⟨77, 1, [107], 1, [118]⟩
    ∧ validUTF8 (MetaIndex.mk 77 1 [107] 1 [118]).value_buf = true
    ∧ mapLookup (append false [107] [118] 77 (start (newSys [])).1).1.inner.path
        (append false [107] [118] 77 (start (newSys [])).1).1.disk
        = some (encodeRec ⟨77, 1, [107], 1, [118]⟩)
    ∧ (append false [107] [118] 77 (start (newSys [])).1).1.inner.path
        = FName.seg (append false [107] [118] 77 (start (newSys [])).1).1.inner.current_file_id
    ∧ ((delete false [107] (append false [107] [118] 77 (start (newSys [])).1).1).2 = .ok ()
        ∧ mapLookup (append false [107] [118] 77 (start (newSys [])).1).1.inner.path
            (delete false [107] (append false [107] [118] 77 (start (newSys [])).1).1).1.disk
            = some (encodeRec ⟨77, 1, [107], 1, [118]⟩
                ++ encodeRec ⟨77, 1, [107], 0, []⟩)
        ∧ mapLookup [107]
            (delete false [107]
              (append false [107] [118] 77 (start (newSys [])).1).1).1.inner.data_index
            = none) :=
  ⟨by decide, by decide, by decide, by decide,
    c10_delete_tombstone [107] (encodeRec ⟨77, 1, [107], 1, [118]⟩)
      (append false [107] [118] 77 (start (newSys [])).1).1 ⟨77, 1, [107], 1, [118]⟩
      (by decide) (by decide) (by decide) (by decide)⟩

end DuckLog
